import Mathlib

/-!
# Verification of the event log decoding and ordered matching engine

This file embeds the core of the `ethers-contract-tools` event tooling
(`event-filters.ts`, `event-wrapper.ts`) in Lean 4 and proves/refutes the
spec's claims about it.

JavaScript runtime values that flow through the matcher are modelled by the
mutual inductive `JSVal`/`JSList`/`JSFields` (arrays and objects carry their
children through the auxiliary list types so that all recursion over values
is structural and kernel-computable).  A thrown JS exception is modelled as
the `.error` branch of `Except`.
-/

mutual

/-- Model of a JavaScript runtime value as seen by the matching engine. -/
inductive JSVal : Type where
  | vNull : JSVal
  | vUndef : JSVal
  | vBool (b : Bool) : JSVal
  | vNum (n : Int) : JSVal
  | vStr (s : String) : JSVal
  | vArr (elems : JSList) : JSVal
  | vObj (fields : JSFields) : JSVal

/-- Elements of a JS array value. -/
inductive JSList : Type where
  | nil : JSList
  | cons (hd : JSVal) (tl : JSList) : JSList

/-- Own enumerable fields of a JS object value, in insertion order. -/
inductive JSFields : Type where
  | fnil : JSFields
  | fcons (key : String) (val : JSVal) (tl : JSFields) : JSFields

end

namespace JSList

/-- JS `Array.prototype.length`. -/
def length : JSList → Nat
  | .nil => 0
  | .cons _ tl => 1 + tl.length

/-- Index access `a[i]`, `none` when out of range. -/
def get? : JSList → Nat → Option JSVal
  | .nil, _ => none
  | .cons hd _, 0 => some hd
  | .cons _ tl, n + 1 => tl.get? n

end JSList

namespace JSFields

/-- Number of own fields. -/
def length : JSFields → Nat
  | .fnil => 0
  | .fcons _ _ tl => 1 + tl.length

/-- The list of own property names, in insertion order. -/
def names : JSFields → List String
  | .fnil => []
  | .fcons k _ tl => k :: tl.names

/-- Property access by key (first binding wins). -/
def get? : JSFields → String → Option JSVal
  | .fnil, _ => none
  | .fcons k v tl, key => if k = key then some v else tl.get? key

end JSFields

/-- JavaScript `typeof`; note `typeof null === "object"`. -/
def jsTypeof : JSVal → String
  | .vNull => "object"
  | .vUndef => "undefined"
  | .vBool _ => "boolean"
  | .vNum _ => "number"
  | .vStr _ => "string"
  | .vArr _ => "object"
  | .vObj _ => "object"

/-- Strict equality `v0 === v1` for values of equal, non-`"object"` `typeof`
(the only situation where `isDeepEqual` uses `===`). -/
def strictPrimEq : JSVal → JSVal → Bool
  | .vUndef, .vUndef => true
  | .vBool a, .vBool b => a == b
  | .vNum a, .vNum b => a == b
  | .vStr a, .vStr b => a == b
  | _, _ => false

/-- Interpret a string as a JS array-index-like key: all-decimal and
non-empty, giving its numeric value (otherwise `none`). -/
def jsDecimalIndex? (s : String) : Option Nat :=
  let cs := s.data
  if cs ≠ [] ∧ cs.all (·.isDigit) then
    some (cs.foldl (fun n c => n * 10 + (c.toNat - '0'.toNat)) 0)
  else none

/-- JS `String.prototype.toUpperCase` (character-wise upper-casing). -/
def jsUpper (s : String) : String := ⟨s.data.map Char.toUpper⟩

/-- JS `Object.getOwnPropertyNames`: `none` models the `TypeError` thrown on
`null`/`undefined`; arrays expose their index keys plus `"length"`. -/
def ownPropertyNames? : JSVal → Option (List String)
  | .vNull => none
  | .vUndef => none
  | .vObj fs => some fs.names
  | .vArr es => some ((List.range es.length).map (fun i => toString i) ++ ["length"])
  | _ => some []

/-- Property access `v[key]` (absent keys give `undefined`); arrays answer
`"length"` and decimal index keys. -/
def getProp : JSVal → String → JSVal
  | .vObj fs, key => (fs.get? key).getD .vUndef
  | .vArr es, key =>
      if key = "length" then .vNum (es.length : Int)
      else
        match jsDecimalIndex? key with
        | some i => (es.get? i).getD .vUndef
        | none => .vUndef
  | _, _ => .vUndef

mutual

/-- Shallow embedding of `isDeepEqual` from `event-filters.ts`.
The `.error ()` branch models the `TypeError` raised by
`Object.getOwnPropertyNames` when the compared value is `null` while both
sides have `typeof === "object"`. -/
def isDeepEqual (v0 v1 : JSVal) : Except Unit Bool :=
  if jsTypeof v0 ≠ jsTypeof v1 then .ok false
  else if jsTypeof v0 ≠ "object" then .ok (strictPrimEq v0 v1)
  else
    match v0, v1 with
    | .vArr a0, .vArr a1 =>
        if a0.length = a1.length then deepEqElems a0 a1 else .ok false
    | .vArr _, _ => .ok false
    | .vObj f0, v1 =>
        match ownPropertyNames? v1 with
        | none => .error ()
        | some k1 =>
            if f0.length ≠ k1.length then .ok false
            else deepEqFields f0 v1 k1
    | .vNull, _ => .error ()
    | _, _ => .error ()

/-- The element-wise comparison `!a0.some((value, i) => !isDeepEqual(value, a1[i]))`
(called with equal lengths; a missing right element reads as `undefined`). -/
def deepEqElems (a0 a1 : JSList) : Except Unit Bool :=
  match a0, a1 with
  | .nil, _ => .ok true
  | .cons h0 t0, .cons h1 t1 =>
      match isDeepEqual h0 h1 with
      | .error e => .error e
      | .ok true => deepEqElems t0 t1
      | .ok false => .ok false
  | .cons h0 t0, .nil =>
      match isDeepEqual h0 .vUndef with
      | .error e => .error e
      | .ok true => deepEqElems t0 .nil
      | .ok false => .ok false

/-- The key loop of `isDeepEqual`'s object branch: every own key of the left
object must be an own key of the right value and the two property values
must be deep-equal. -/
def deepEqFields (f0 : JSFields) (v1 : JSVal) (k1 : List String) : Except Unit Bool :=
  match f0 with
  | .fnil => .ok true
  | .fcons k v tl =>
      if k ∈ k1 then
        match isDeepEqual v (getProp v1 k) with
        | .error e => .error e
        | .ok true => deepEqFields tl v1 k1
        | .ok false => .ok false
      else .ok false

end

mutual

/-- No `null` occurs anywhere inside the value (such values can never trip
the `TypeError` of `isDeepEqual`'s object branch). -/
def nullFree : JSVal → Bool
  | .vNull => false
  | .vArr es => nullFreeL es
  | .vObj fs => nullFreeF fs
  | _ => true

/-- Predicate `nullFree` over array elements. -/
def nullFreeL : JSList → Bool
  | .nil => true
  | .cons hd tl => nullFree hd && nullFreeL tl

/-- Predicate `nullFree` over object fields. -/
def nullFreeF : JSFields → Bool
  | .fnil => true
  | .fcons _ v tl => nullFree v && nullFreeF tl

end

/-- Whether `v` is `null` or `undefined` (the JS test `(v ?? null) === null`). -/
def jsNullish : JSVal → Bool
  | .vNull => true
  | .vUndef => true
  | _ => false

/-- A log record from a receipt (`Log` of `@ethersproject/abstract-provider`):
emitting address, topic hashes (index 0 = signature tag) and opaque payload. -/
structure Log where
  address : String
  topics : List String
  data : String

/-- An ethers `utils.Result`: a decoded event exposing its values both
positionally and by parameter name. -/
structure ResultVal where
  arr : List JSVal
  named : List (String × JSVal)

namespace ResultVal

/-- Positional access `args[i]` (`undefined` out of range). -/
def byIndex (r : ResultVal) (i : Nat) : JSVal :=
  (r.arr.getD i JSVal.vUndef : JSVal)

/-- Keyed access `args[key]`: decimal keys hit the positional slots,
other keys the named properties (`undefined` when absent). -/
def byKey (r : ResultVal) (key : String) : JSVal :=
  match jsDecimalIndex? key with
  | some i => r.byIndex i
  | none => ((r.named.find? (fun p => p.1 == key)).map (·.2)).getD .vUndef

end ResultVal

/-- Structure `ExtendedEventFilter` from `event-filters.ts`: optional target address,
topic constraints (`none` entry = wildcard), optional non-indexed value
constraints, and the injected decode routine. -/
structure ExtendedEventFilter where
  address : Option String
  topics : Option (List (Option String))
  nonIndexed : Option (List JSVal)
  decodeEventData : Log → ResultVal

/-- The topic loop of `_matchTopics`: each expected topic must find a slot in
the record's topics (running out of record topics rejects) and must be a
wildcard or equal to the record's topic at that position. -/
def matchTopicsAux : List (Option String) → List String → Bool
  | [], _ => true
  | _ :: _, [] => false
  | some t :: erest, a :: arest => if t ≠ a then false else matchTopicsAux erest arest
  | none :: erest, _ :: arest => matchTopicsAux erest arest

/-- Function `_matchTopics` from `event-filters.ts`: case-insensitive address equality
when the filter has a target address, then the topic loop over
`expected.topics ?? []`. -/
def _matchTopics (actual : Log) (expected : ExtendedEventFilter) : Bool :=
  match expected.address with
  | some a =>
      if (jsUpper actual.address) ≠ (jsUpper a) then false
      else matchTopicsAux (expected.topics.getD []) actual.topics
  | none => matchTopicsAux (expected.topics.getD []) actual.topics

/-- The indexed `expected.some(...)` loop of `_matchProperties`: a `null` or
`undefined` expected entry never constrains; otherwise the entry must be
deep-equal to the decoded value at the same position. -/
def matchPropsAux (actual : ResultVal) : List JSVal → Nat → Except Unit Bool
  | [], _ => .ok true
  | v :: rest, idx =>
      if jsNullish v then matchPropsAux actual rest (idx + 1)
      else
        match isDeepEqual v (actual.byIndex idx) with
        | .error e => .error e
        | .ok true => matchPropsAux actual rest (idx + 1)
        | .ok false => .ok false

/-- Function `_matchProperties` from `event-filters.ts`. -/
def _matchProperties (actual : ResultVal) (expected : List JSVal) : Except Unit Bool :=
  matchPropsAux actual expected 0

/-- Failures that escape the matching engine: a JS `TypeError` from
`isDeepEqual`, or a chai assertion failure (with the assertion's message). -/
inductive JsError : Type where
  | typeError : JsError
  | assertionError (msg : String) : JsError
deriving DecidableEq

/-- The inner `for j` scan of `_orderedFilter`, run over the `(index, record)`
pairs still ahead of the scan start.  Skips consumed records, skips records
failing the topic or non-indexed value constraints, and at the first fully
matching record either accepts it (when its index strictly exceeds the
previous filter's match) or raises the `Wrong order of events` assertion. -/
def scanList (f : ExtendedEventFilter) (matched : List Nat) (prev : Int) :
    List (Nat × Log) → Except JsError (Option (Nat × Log × ResultVal))
  | [] => .ok none
  | (j, actual) :: rest =>
      if j ∈ matched then scanList f matched prev rest
      else if _matchTopics actual f then
        let decoded := f.decodeEventData actual
        let pass : Except Unit Bool :=
          match f.nonIndexed with
          | none => .ok true
          | some ni => _matchProperties decoded ni
        match pass with
        | .error _ => .error .typeError
        | .ok true =>
            if prev < (j : Int) then .ok (some (j, actual, decoded))
            else .error (.assertionError "Wrong order of events")
        | .ok false => scanList f matched prev rest
      else scanList f matched prev rest

/-- The outer `for i` loop of `_orderedFilter`: one scan per filter; the scan
starts at `prevActualIndex + 1` when `forwardOnly` and at `0` otherwise.
Returns the matched `(position, emitter address, decoded value)` triples in
filter order (a filter that finds nothing contributes nothing). -/
def orderedLoop (actuals : List Log) (forwardOnly : Bool) :
    List ExtendedEventFilter → List Nat → Int →
    Except JsError (List (Nat × String × ResultVal))
  | [], _, _ => .ok []
  | f :: rest, matched, prev =>
      let start : Nat := if forwardOnly then (prev + 1).toNat else 0
      match scanList f matched prev (List.enumFrom start (actuals.drop start)) with
      | .error e => .error e
      | .ok none => orderedLoop actuals forwardOnly rest matched prev
      | .ok (some (j, actual, decoded)) =>
          match orderedLoop actuals forwardOnly rest (j :: matched) (j : Int) with
          | .error e => .error e
          | .ok tail => .ok ((j, actual.address, decoded) :: tail)

/-- Function `_orderedFilter` from `event-filters.ts`: run the filters in order over
the receipt's logs, then fail with `Not all expected events were found`
unless every filter matched; on success return the emitter addresses and the
decoded results, in filter order. -/
def _orderedFilter (actuals : List Log) (expecteds : List ExtendedEventFilter)
    (forwardOnly : Bool) : Except JsError (List String × List ResultVal) :=
  match orderedLoop actuals forwardOnly expecteds [] (-1) with
  | .error e => .error e
  | .ok triples =>
      if triples.length = expecteds.length then
        .ok (triples.map (fun t => t.2.1), triples.map (fun t => t.2.2))
      else .error (.assertionError "Not all expected events were found")

/-- An empty decoded result, used by the concrete example filters below
(their matching never looks at decoded values). -/
def emptyResult : ResultVal := ⟨[], []⟩

/-- Example logs: tags A, B, A at sequence positions 0, 1, 2. -/
def exLogs : List Log :=
  [⟨"0xA1", ["A"], ""⟩, ⟨"0xB1", ["B"], ""⟩, ⟨"0xA2", ["A"], ""⟩]

/-- Example filter matching records whose signature tag is `B`. -/
def exFilterB : ExtendedEventFilter := ⟨none, some [some "B"], none, fun _ => emptyResult⟩

/-- Example filter matching records whose signature tag is `A`. -/
def exFilterA : ExtendedEventFilter := ⟨none, some [some "A"], none, fun _ => emptyResult⟩

/-- Example filter with a target address and signature tag `B`. -/
def exFilterBAddr : ExtendedEventFilter :=
  ⟨some "0xb1", some [some "B"], none, fun _ => emptyResult⟩

/-- Lookup in a JS `Map` keyed by strings (insertion-ordered association list). -/
def mapGet {β : Type} (m : List (String × β)) (k : String) : Option β :=
  (m.find? (fun p => p.1 == k)).map (·.2)

/-- JS `Map.prototype.set`: replace an existing binding in place, else append. -/
def mapSet {β : Type} : List (String × β) → String → β → List (String × β)
  | [], k, v => [(k, v)]
  | (k', v') :: rest, k, v =>
      if k' = k then (k, v) :: rest else (k', v') :: mapSet rest k v

/-- Function `filtersToDecoders` from `event-filters.ts`: index each filter's decode
routine under its upper-cased address and its signature tag, but only when
the filter's `address` is truthy (set and non-empty), `topics` is present
and `topics[0]` is a string. -/
def filtersToDecoders (filters : List ExtendedEventFilter) :
    List (String × List (String × (Log → ResultVal))) :=
  filters.foldl
    (fun result f =>
      match f.address, f.topics with
      | some addr, some ts =>
          if addr = "" then result
          else
            match ts.head? with
            | some (some tag) =>
                let addrU := (jsUpper addr)
                let subMap := (mapGet result addrU).getD []
                mapSet result addrU (mapSet subMap tag f.decodeEventData)
            | _ => result
      | _, _ => result)
    []

/-- Function `decodeEventLogs` from `event-filters.ts`: scan the logs once in order and
decode every record for which the lookup yields a decoder (the lookup
receives the record's upper-cased address and its topic 0, which is absent
when the record has no topics). -/
def decodeEventLogs (logs : List Log)
    (decoderLookup : String → Option String → Option (Log → ResultVal)) :
    List ResultVal :=
  match logs with
  | [] => []
  | entry :: rest =>
      match decoderLookup (jsUpper entry.address) entry.topics.head? with
      | some decodeFn => decodeFn entry :: decodeEventLogs rest decoderLookup
      | none => decodeEventLogs rest decoderLookup

/-- Function `filterEventFromLog` from `event-filters.ts`: the single-filter decoding
path, built from `filtersToDecoders` on the one filter and `decodeEventLogs`. -/
def filterEventFromLog (logs : List Log) (f : ExtendedEventFilter) : List ResultVal :=
  let decoders := filtersToDecoders [f]
  decodeEventLogs logs
    (fun emitter topic =>
      match topic with
      | some t => (mapGet decoders emitter).bind (fun sub => mapGet sub t)
      | none => none)

/-- One parameter of an event fragment (`fragment.inputs[i]`). -/
structure EventParam where
  name : String
  indexed : Bool

/-- A positional / named / mixed value specification, as the JS runtime sees
it: either an array (`isArray = true`, index slots in `elems`, extra named
properties in `named`) or a plain record (`isArray = false`, all own keys in
`named`, `elems = []`). -/
structure PropsSpec where
  isArray : Bool
  elems : List JSVal
  named : List (String × JSVal)

/-- Whether `parseInt(s, 10)` yields `NaN`: after skipping leading
whitespace and an optional sign there is no leading decimal digit. -/
def parseIntNaN (s : String) : Bool :=
  match s.data.dropWhile (fun c => c.isWhitespace) with
  | [] => true
  | c :: rest =>
      if c == '-' || c == '+' then
        match rest with
        | [] => true
        | d :: _ => !d.isDigit
      else !c.isDigit

/-- JS strict equality `===` as used by the chai `.eq` assertions.
Primitives compare by value; two object/array values in this model stand
for distinct references and compare unequal. -/
def jsStrictEq : JSVal → JSVal → Bool
  | .vNull, .vNull => true
  | .vUndef, .vUndef => true
  | .vBool a, .vBool b => a == b
  | .vNum a, .vNum b => a == b
  | .vStr a, .vStr b => a == b
  | _, _ => false

/-- Own property names of `Object.prototype`, inherited by every plain
object and array a spec value can be. -/
def jsObjectProtoNames : List String :=
  ["constructor", "hasOwnProperty", "isPrototypeOf", "propertyIsEnumerable",
    "toLocaleString", "toString", "valueOf", "__proto__",
    "__defineGetter__", "__defineSetter__", "__lookupGetter__", "__lookupSetter__"]

/-- Own property names of `Array.prototype` besides `length`, inherited by
every array a spec value can be (the standard method set). -/
def jsArrayProtoNames : List String :=
  ["constructor", "at", "concat", "copyWithin", "entries", "every", "fill",
    "filter", "find", "findIndex", "flat", "flatMap", "forEach", "includes",
    "indexOf", "join", "keys", "lastIndexOf", "map", "pop", "push", "reduce",
    "reduceRight", "reverse", "shift", "slice", "some", "sort", "splice",
    "toLocaleString", "unshift", "values"]

/-- Opaque stand-in for an inherited member (a native function, or
`Object.prototype` itself for `__proto__`) reached by property access: it is
neither `undefined` nor `null`, and — being a reference to a native object —
it is never strictly equal (`===`) to any data value a spec can hold. -/
def jsInheritedMember : JSVal := .vObj (.fcons "native" .vUndef .fnil)

/-- Property access `properties[name]` on a spec value.  On an array: an
in-range decimal name reads the index slot, `length` reads the array's own
`length` property, other names read the own named properties and then the
inherited `Array.prototype` / `Object.prototype` members.  On a record: the
own named properties, then the inherited `Object.prototype` members.
(An array spec's `named` field holds only non-index, non-`length` keys.) -/
def lookupProp (props : PropsSpec) (name : String) : JSVal :=
  if props.isArray then
    match jsDecimalIndex? name with
    | some i => if i < props.elems.length then props.elems.getD i .vUndef else .vUndef
    | none =>
        if name = "length" then .vNum (props.elems.length : Int)
        else
          match (props.named.find? (fun p => p.1 == name)).map (·.2) with
          | some v => v
          | none =>
              if name ∈ jsArrayProtoNames ∨ name ∈ jsObjectProtoNames then
                jsInheritedMember
              else .vUndef
  else
    match (props.named.find? (fun p => p.1 == name)).map (·.2) with
    | some v => v
    | none =>
        (if name ∈ jsObjectProtoNames then jsInheritedMember else JSVal.vUndef : JSVal)

/-- Nullish coalescing `v ?? null`. -/
def jsCoalesceNull (v : JSVal) : JSVal :=
  if jsNullish v then .vNull else v

/-- The `fragment.inputs.forEach` body of `_buildFilterArgs`: resolve each
parameter's value from the positional slot and the named property (checking
consistency when both are present), route it into the `indexed` or
`nonIndexed` sequence, track whether any concrete non-indexed value was
seen, and thread the running `namedCount`. -/
def buildLoop (props : PropsSpec) :
    List EventParam → Nat → Int →
    Except JsError (List JSVal × List JSVal × Bool × Int)
  | [], _, namedCount => .ok ([], [], false, namedCount)
  | p :: rest, index, namedCount =>
      let namedValue0 := lookupProp props p.name
      let value0 : JSVal :=
        if props.isArray then jsCoalesceNull (props.elems.getD index .vUndef) else .vNull
      let step : JSVal × Int :=
        match namedValue0 with
        | .vUndef => (.vNull, namedCount)
        | v => (v, namedCount - 1)
      let namedValue := step.1
      let namedCount' := step.2
      let valueE : Except JsError JSVal :=
        match namedValue with
        | .vNull => .ok value0
        | nv =>
            match value0 with
            | .vNull => .ok nv
            | v0 =>
                if jsStrictEq nv v0 then .ok v0
                else .error (.assertionError "expected namedValue to equal value")
      match valueE with
      | .error e => .error e
      | .ok value =>
          match buildLoop props rest (index + 1) namedCount' with
          | .error e => .error e
          | .ok (ind, ni, hasNI, finalCount) =>
              if p.indexed then .ok (value :: ind, .vNull :: ni, hasNI, finalCount)
              else
                .ok (.vNull :: ind, value :: ni,
                  (match value with | .vNull => hasNI | _ => true), finalCount)

/-- Function `_buildFilterArgs` from `event-filters.ts`: validate the positional count,
compute the initial `namedCount` (for an array only the non-numeric own keys
count; for a record every own key counts), run the parameter loop when any
positional or named value was supplied, demand every named key was consumed,
and return the indexed constraints plus the non-indexed constraints (the
latter only when some concrete non-indexed value was seen). -/
def _buildFilterArgs (inputs : List EventParam) (props : PropsSpec) :
    Except JsError (List JSVal × Option (List JSVal)) :=
  let arrayCount := if props.isArray then props.elems.length else 0
  if props.isArray ∧ inputs.length < arrayCount then
    .error (.assertionError "Inconsistend set of indexed properties")
  else
    let namedCount0 : Int :=
      if props.isArray then ((props.named.filter (fun kv => parseIntNaN kv.1)).length : Int)
      else (props.named.length : Int)
    if 0 < namedCount0 ∨ 0 < arrayCount then
      match buildLoop props inputs 0 namedCount0 with
      | .error e => .error e
      | .ok (ind, ni, hasNI, finalCount) =>
          if finalCount = 0 then .ok (ind, if hasNI then some ni else none)
          else .error (.assertionError "Inconsistend set of named properties")
    else .ok ([], none)

/-- The routing that `_buildFilterArgs`'s parameter loop applies once every
parameter's value is resolved: each value lands in the `indexed` or the
`nonIndexed` sequence according to its parameter, with a `null` placeholder
in the other, tracking whether any concrete non-indexed value occurred.
Used to state that the positional and the named run route identical values. -/
def specLoop : List EventParam → List JSVal → List JSVal × List JSVal × Bool
  | [], _ => ([], [], false)
  | _ :: _, [] => ([], [], false)
  | p :: ps, v :: vs =>
      let r := specLoop ps vs
      if p.indexed then (v :: r.1, .vNull :: r.2.1, r.2.2)
      else (.vNull :: r.1, v :: r.2.1, (match v with | .vNull => r.2.2 | _ => true))

/-- The per-event state of an `EventFactory`: the emitter's address, the
signature tag `utils.id(fragment.format())`, the fragment's parameters and
the ABI registry's decode routine for this event (opaque collaborators at
this boundary). -/
structure EmitterModel where
  address : String
  eventTag : String
  params : List EventParam
  decode : Log → ResultVal

/-- Function `findEventArgs` from `event-wrapper.ts`: decode, in order, every log
record whose topic 0 equals the signature tag and whose address equals the
emitter's (case-insensitively); fail unless at least one was found. -/
def findEventArgs (em : EmitterModel) (logs : List Log) : Except JsError (List ResultVal) :=
  let found :=
    (logs.filter (fun entry =>
      entry.topics.head? == some em.eventTag &&
      (jsUpper entry.address) == (jsUpper em.address))).map em.decode
  if 0 < found.length then .ok found
  else .error (.assertionError "Failed to find any event matching name")

/-- The `fragment.inputs.forEach` body of `_verifyByFragment`, from index `i`:
each declared parameter must be present positionally and, when it has a
name, by name. -/
def verifyByFragmentAux (args : ResultVal) : List EventParam → Nat → Except JsError Unit
  | [], _ => .ok ()
  | p :: rest, i =>
      match args.byIndex i with
      | .vUndef => .error (.assertionError "Property is undefined")
      | _ =>
          if p.name ≠ "" then
            match args.byKey p.name with
            | .vUndef => .error (.assertionError "Property is undefined")
            | _ => verifyByFragmentAux args rest (i + 1)
          else verifyByFragmentAux args rest (i + 1)

/-- Function `_verifyByFragment` from `event-wrapper.ts`. -/
def _verifyByFragment (params : List EventParam) (args : ResultVal) : Except JsError Unit :=
  verifyByFragmentAux args params 0

/-- The positional loop of `_verifyByProperties`: every concrete expected
array entry must be strictly equal to the decoded value at its index. -/
def verifyPropsIdx (args : ResultVal) : List JSVal → Nat → Except JsError Unit
  | [], _ => .ok ()
  | v :: rest, i =>
      if jsNullish v then verifyPropsIdx args rest (i + 1)
      else if jsStrictEq (args.byIndex i) v then verifyPropsIdx args rest (i + 1)
      else .error (.assertionError "Mismatched value of property")

/-- The `Object.entries` loop of `_verifyByProperties`: every concrete
expected entry (index keys first for an array spec, then named keys) must be
strictly equal to the decoded value under the same key. -/
def verifyPropsEntries (args : ResultVal) : List (String × JSVal) → Except JsError Unit
  | [] => .ok ()
  | (k, v) :: rest =>
      if jsNullish v then verifyPropsEntries args rest
      else if jsStrictEq (args.byKey k) v then verifyPropsEntries args rest
      else .error (.assertionError "Mismatched value of property")

/-- JS `Object.entries` of a spec value: index keys then named keys for an
array, the named keys for a record. -/
def specEntries (props : PropsSpec) : List (String × JSVal) :=
  if props.isArray then
    (props.elems.enum.map (fun p => (toString p.1, p.2))) ++ props.named
  else props.named

/-- Function `_verifyByProperties` from `event-wrapper.ts`. -/
def _verifyByProperties (expected : PropsSpec) (args : ResultVal) : Except JsError Unit :=
  match (if expected.isArray then verifyPropsIdx args expected.elems 0 else .ok ()) with
  | .error e => .error e
  | .ok () => verifyPropsEntries args (specEntries expected)

/-- The `args.forEach((arg) => this.verifyArgs(arg))` loop of `all` (with no
expected value, `verifyArgs` is exactly `_verifyByFragment`). -/
def verifyAll (params : List EventParam) : List ResultVal → Except JsError Unit
  | [] => .ok ()
  | a :: rest =>
      match _verifyByFragment params a with
      | .error e => .error e
      | .ok () => verifyAll params rest

/-- The `all` operation of the event factory (`event-wrapper.ts`): find and
decode this emitter's matching records; with no transform, verify each
decoded result by fragment and return them (`.inl`); with a caller-supplied
transform `fn`, return `fn args` (`.inr`). -/
def allOp {β : Type} (em : EmitterModel) (logs : List Log)
    (fn : Option (List ResultVal → β)) : Except JsError (List ResultVal ⊕ β) :=
  match findEventArgs em logs with
  | .error e => .error e
  | .ok args =>
      match fn with
      | none =>
          match verifyAll em.params args with
          | .error e => .error e
          | .ok () => .ok (.inl args)
      | some f => .ok (.inr (f args))

/-- The `expectOne` operation of the event factory (`event-wrapper.ts`): find
and decode this emitter's matching records, demand exactly one, verify it
against the expected values (when given) and by fragment, and return it. -/
def expectOne (em : EmitterModel) (logs : List Log) (expected : Option PropsSpec) :
    Except JsError ResultVal :=
  match findEventArgs em logs with
  | .error e => .error e
  | .ok args =>
      if args.length = 1 then
        let a := args.headD ⟨[], []⟩
        match (match expected with
          | some e => _verifyByProperties e a
          | none => .ok ()) with
        | .error e => .error e
        | .ok () =>
            match _verifyByFragment em.params a with
            | .error e => .error e
            | .ok () => .ok a
      else .error (.assertionError "Expecting a single event")

/-- Example emitter whose decode yields an empty result (its declared
parameter `a` ends up missing from decoded values). -/
def exEmitter : EmitterModel := ⟨"0xE1", "T", [⟨"a", false⟩], fun _ => emptyResult⟩

/-- Example emitter whose decode populates its declared parameter `a`. -/
def exEmitterOk : EmitterModel :=
  ⟨"0xE1", "T", [⟨"a", false⟩], fun _ => ⟨[.vNum 7], [("a", .vNum 7)]⟩⟩

/-- A log record emitted by `0xE1` with signature tag `T`. -/
def exLogT : Log := ⟨"0xE1", ["T"], ""⟩

section OrderedMatcherLemmas

/-- Indices in `List.enumFrom n l` are at least `n`. -/
theorem enumFrom_fst_le {α : Type} :
    ∀ (l : List α) (n : Nat) (p : Nat × α), p ∈ List.enumFrom n l → n ≤ p.1 := by
  intro l
  induction l with
  | nil => intro n p hp; simp [List.enumFrom] at hp
  | cons a t ih =>
      intro n p hp
      simp only [List.enumFrom, List.mem_cons] at hp
      rcases hp with h | h
      · subst h; exact Nat.le_refl n
      · exact Nat.le_of_succ_le (ih (n + 1) p h)

/-- A successful scan returns a position strictly after `prev`, not yet
consumed, and taken from the scanned pairs. -/
theorem scanList_ok_some (f : ExtendedEventFilter) (matched : List Nat) (prev : Int) :
    ∀ (pairs : List (Nat × Log)) (j : Nat) (a : Log) (d : ResultVal),
      scanList f matched prev pairs = .ok (some (j, a, d)) →
      prev < (j : Int) ∧ j ∉ matched ∧ (j, a) ∈ pairs := by
  intro pairs
  induction pairs with
  | nil => intro j a d h; simp [scanList] at h
  | cons p rest ih =>
      intro j a d h
      obtain ⟨j', actual⟩ := p
      simp only [scanList] at h
      by_cases hm : j' ∈ matched
      · simp only [if_pos hm] at h
        obtain ⟨h1, h2, h3⟩ := ih j a d h
        exact ⟨h1, h2, List.mem_cons_of_mem _ h3⟩
      · simp only [if_neg hm] at h
        by_cases ht : _matchTopics actual f
        · simp only [if_pos ht] at h
          revert h
          cases hpass : (match f.nonIndexed with
            | none => Except.ok true
            | some ni => _matchProperties (f.decodeEventData actual) ni) with
          | error e => intro h; simp at h
          | ok b =>
              cases b with
              | true =>
                  intro h
                  simp only at h
                  by_cases hlt : prev < (j' : Int)
                  · simp only [if_pos hlt, Except.ok.injEq, Option.some.injEq,
                      Prod.mk.injEq] at h
                    obtain ⟨hj, ha, -⟩ := h
                    subst hj
                    subst ha
                    exact ⟨hlt, hm, List.mem_cons_self _ _⟩
                  · simp only [if_neg hlt] at h
                    simp at h
              | false =>
                  intro h
                  simp only at h
                  obtain ⟨h1, h2, h3⟩ := ih j a d h
                  exact ⟨h1, h2, List.mem_cons_of_mem _ h3⟩
        · simp only [if_neg ht] at h
          obtain ⟨h1, h2, h3⟩ := ih j a d h
          exact ⟨h1, h2, List.mem_cons_of_mem _ h3⟩

/-- Master invariant of the outer loop: positions returned by `orderedLoop`
strictly exceed the incoming `prev`, avoid the incoming consumed set, are
strictly increasing in filter order, and are pairwise distinct. -/
theorem orderedLoop_invariant (actuals : List Log) (fo : Bool) :
    ∀ (fs : List ExtendedEventFilter) (matched : List Nat) (prev : Int)
      (triples : List (Nat × String × ResultVal)),
      orderedLoop actuals fo fs matched prev = .ok triples →
      (∀ x ∈ triples, prev < (x.1 : Int) ∧ x.1 ∉ matched) ∧
      (triples.map (·.1)).Chain' (· < ·) ∧
      (triples.map (·.1)).Pairwise (· < ·) ∧
      (triples.map (·.1)).Nodup := by
  intro fs
  induction fs with
  | nil =>
      intro matched prev triples h
      simp only [orderedLoop] at h
      obtain rfl := (Except.ok.inj h).symm
      simp
  | cons f rest ih =>
      intro matched prev triples h
      simp only [orderedLoop] at h
      revert h
      cases hscan : scanList f matched prev
          (List.enumFrom (if fo then (prev + 1).toNat else 0)
            (actuals.drop (if fo then (prev + 1).toNat else 0))) with
      | error e => intro h; simp at h
      | ok res =>
          cases res with
          | none =>
              intro h
              exact ih matched prev triples h
          | some t =>
              obtain ⟨j, actual, decoded⟩ := t
              cases htail : orderedLoop actuals fo rest (j :: matched) (j : Int) with
              | error e => intro h; simp [htail] at h
              | ok tail =>
                  intro h
                  simp only [htail] at h
                  obtain rfl := (Except.ok.inj h).symm
                  obtain ⟨hprev, hnm, _⟩ :=
                    scanList_ok_some f matched prev _ j actual decoded hscan
                  obtain ⟨htmem, htchain, htpw, htnd⟩ := ih (j :: matched) (j : Int) tail htail
                  have hgt : ∀ x ∈ tail, j < x.1 := by
                    intro x hx
                    exact_mod_cast (htmem x hx).1
                  refine ⟨?_, ?_, ?_, ?_⟩
                  · intro x hx
                    rcases List.mem_cons.mp hx with h | h
                    · subst h; exact ⟨hprev, hnm⟩
                    · refine ⟨lt_trans hprev (htmem x h).1, ?_⟩
                      intro hc
                      exact (htmem x h).2 (List.mem_cons_of_mem _ hc)
                  · rw [List.map_cons, List.chain'_cons']
                    refine ⟨?_, htchain⟩
                    intro y hy
                    obtain ⟨x, hx, rfl⟩ := List.mem_map.mp (List.mem_of_mem_head? hy)
                    exact hgt x hx
                  · rw [List.map_cons, List.pairwise_cons]
                    refine ⟨?_, htpw⟩
                    intro y hy
                    obtain ⟨x, hx, rfl⟩ := List.mem_map.mp hy
                    exact hgt x hx
                  · rw [List.map_cons, List.nodup_cons]
                    refine ⟨?_, htnd⟩
                    intro hc
                    obtain ⟨x, hx, hx1⟩ := List.mem_map.mp hc
                    exact (htmem x hx).2 (by simp [hx1])

/-- When every scanned index lies strictly after `prev`, the scan can never
raise the `Wrong order of events` assertion. -/
theorem scanList_no_wrongOrder (f : ExtendedEventFilter) (matched : List Nat) (prev : Int) :
    ∀ (pairs : List (Nat × Log)),
      (∀ p ∈ pairs, prev < (p.1 : Int)) →
      scanList f matched prev pairs ≠ .error (.assertionError "Wrong order of events") := by
  intro pairs
  induction pairs with
  | nil => intro _ h; simp [scanList] at h
  | cons p rest ih =>
      intro hall h
      obtain ⟨j, actual⟩ := p
      have hrest : ∀ q ∈ rest, prev < (q.1 : Int) := fun q hq =>
        hall q (List.mem_cons_of_mem _ hq)
      simp only [scanList] at h
      by_cases hm : j ∈ matched
      · rw [if_pos hm] at h; exact ih hrest h
      · rw [if_neg hm] at h
        by_cases ht : _matchTopics actual f
        · rw [if_pos ht] at h
          revert h
          cases hpass : (match f.nonIndexed with
            | none => Except.ok true
            | some ni => _matchProperties (f.decodeEventData actual) ni) with
          | error e => intro h; simp at h
          | ok b =>
              cases b with
              | true =>
                  intro h
                  have hj : prev < (j : Int) := hall (j, actual) (List.mem_cons_self _ _)
                  simp only [if_pos hj] at h
                  exact Except.noConfusion h
              | false => intro h; exact ih hrest h
        · rw [if_neg ht] at h; exact ih hrest h

/-- With `forwardOnly = true` every scan starts at `prev + 1`, so the order
assertion can never fire in the outer loop. -/
theorem orderedLoop_true_no_wrongOrder (actuals : List Log) :
    ∀ (fs : List ExtendedEventFilter) (matched : List Nat) (prev : Int),
      orderedLoop actuals true fs matched prev ≠
        .error (.assertionError "Wrong order of events") := by
  intro fs
  induction fs with
  | nil => intro matched prev h; simp [orderedLoop] at h
  | cons f rest ih =>
      intro matched prev h
      simp only [orderedLoop, if_pos] at h
      revert h
      cases hscan : scanList f matched prev
          (List.enumFrom (prev + 1).toNat (actuals.drop (prev + 1).toNat)) with
      | error e =>
          intro h
          have hfst : ∀ p ∈ List.enumFrom (prev + 1).toNat (actuals.drop (prev + 1).toNat),
              prev < (p.1 : Int) := by
            intro p hp
            have := enumFrom_fst_le _ _ _ hp
            omega
          have := scanList_no_wrongOrder f matched prev _ hfst
          rw [hscan] at this
          obtain rfl := Except.error.inj h
          exact this rfl
      | ok res =>
          cases res with
          | none => intro h; exact ih matched prev h
          | some t =>
              obtain ⟨j, actual, decoded⟩ := t
              cases htail : orderedLoop actuals true rest (j :: matched) (j : Int) with
              | error e =>
                  intro h
                  simp only [htail] at h
                  obtain rfl := Except.error.inj h
                  exact ih (j :: matched) (j : Int) htail
              | ok tail => intro h; simp [htail] at h

end OrderedMatcherLemmas

/-- C1 (counterexample): with `forwardOnly = false`, logs tagged `A, B, A` at
positions 0, 1, 2 and filters `[B, A]`, the call fails with the
`Wrong order of events` assertion even though the record at position 2 is a
valid candidate for the second filter at a strictly later position than the
first filter's match (position 1): the scan does not continue past the
out-of-order candidate at position 0. -/
theorem orderedFilter_failsDespiteLaterCandidate :
    _orderedFilter exLogs [exFilterB, exFilterA] false =
        .error (.assertionError "Wrong order of events") ∧
      exLogs.getD 2 ⟨"", [], ""⟩ = ⟨"0xA2", ["A"], ""⟩ ∧
      _matchTopics ⟨"0xA2", ["A"], ""⟩ exFilterA = true ∧
      orderedLoop exLogs false [exFilterB] [] (-1) =
        .ok [(1, "0xB1", emptyResult)] :=
  ⟨rfl, rfl, rfl, rfl⟩

/-- C1 (amended): with `forwardOnly = false`, the scan selects the *first*
unconsumed candidate satisfying all topic and value constraints regardless
of the previous match position (the search itself never depends on `prev`):
if that candidate's position is at or before the previous filter's match the
call fails immediately with the ordering-violation assertion — even when a
valid candidate at a strictly later position exists — and otherwise that
first candidate is the one chosen, so a later valid candidate is never
preferred over an earlier valid one. -/
theorem scanList_firstCandidate_decides (f : ExtendedEventFilter) (matched : List Nat) :
    ∀ (pairs : List (Nat × Log)) (j : Nat) (a : Log) (d : ResultVal),
      scanList f matched (-1) pairs = .ok (some (j, a, d)) →
      ∀ prev : Int,
        ((j : Int) ≤ prev →
          scanList f matched prev pairs = .error (.assertionError "Wrong order of events")) ∧
        (prev < (j : Int) → scanList f matched prev pairs = .ok (some (j, a, d))) := by
  intro pairs
  induction pairs with
  | nil => intro j a d h; simp [scanList] at h
  | cons p rest ih =>
      intro j a d h prev
      obtain ⟨j', actual⟩ := p
      simp only [scanList] at h ⊢
      by_cases hm : j' ∈ matched
      · simp only [if_pos hm] at h ⊢
        exact ih j a d h prev
      · simp only [if_neg hm] at h ⊢
        by_cases ht : _matchTopics actual f
        · simp only [if_pos ht] at h ⊢
          revert h
          cases hpass : (match f.nonIndexed with
            | none => Except.ok true
            | some ni => _matchProperties (f.decodeEventData actual) ni) with
          | error e => intro h; simp at h
          | ok b =>
              cases b with
              | true =>
                  intro h
                  have h0 : (-1 : Int) < (j' : Int) := by
                    have := Int.natCast_nonneg j'
                    omega
                  simp only [if_pos h0, Except.ok.injEq, Option.some.injEq,
                    Prod.mk.injEq] at h
                  obtain ⟨hj, ha, hd⟩ := h
                  subst hj; subst ha; subst hd
                  constructor
                  · intro hle
                    have : ¬ prev < (j' : Int) := by omega
                    simp [this]
                  · intro hlt
                    simp [hlt]
              | false => intro h; exact ih j a d h prev
        · simp only [if_neg ht] at h ⊢
          exact ih j a d h prev

/-- C2: whenever the ordered matcher's outer loop succeeds from the initial
state (`consumed = ∅`, `lastAssigned = -1`, as `_orderedFilter` invokes it),
the sequence positions of the matched records strictly increase in filter
order, for either value of `forwardOnly`. -/
theorem orderedLoop_positions_strictMono (actuals : List Log) (fo : Bool)
    (expecteds : List ExtendedEventFilter) (triples : List (Nat × String × ResultVal))
    (h : orderedLoop actuals fo expecteds [] (-1) = .ok triples) :
    (triples.map (·.1)).Chain' (· < ·) :=
  (orderedLoop_invariant actuals fo expecteds [] (-1) triples h).2.1

/-- Witness for C2: a successful concrete run with `forwardOnly = false`
whose matched positions `[0, 1]` strictly increase. -/
theorem orderedLoop_positions_strictMono_witness :
    (([(0, "0xA1", emptyResult), (1, "0xB1", emptyResult)] :
        List (Nat × String × ResultVal)).map (·.1)).Chain' (· < ·) :=
  orderedLoop_positions_strictMono exLogs false [exFilterA, exFilterB] _ rfl

/-- C3: `_orderedFilter` either fails or returns exactly one decoded result
and one emitter address per filter; a successful call never returns fewer
results than filters. -/
theorem orderedFilter_complete (actuals : List Log) (expecteds : List ExtendedEventFilter)
    (fo : Bool) (addrs : List String) (results : List ResultVal)
    (h : _orderedFilter actuals expecteds fo = .ok (addrs, results)) :
    results.length = expecteds.length ∧ addrs.length = expecteds.length := by
  revert h
  simp only [_orderedFilter]
  cases hloop : orderedLoop actuals fo expecteds [] (-1) with
  | error e => intro h; simp at h
  | ok triples =>
      by_cases hlen : triples.length = expecteds.length
      · simp only [if_pos hlen, Except.ok.injEq, Prod.mk.injEq]
        rintro ⟨rfl, rfl⟩
        simp [hlen]
      · simp [if_neg hlen]

/-- Witness for C3: the successful two-filter run returns two addresses and
two results. -/
theorem orderedFilter_complete_witness :
    ([emptyResult, emptyResult] : List ResultVal).length =
        ([exFilterA, exFilterB] : List ExtendedEventFilter).length ∧
      (["0xA1", "0xB1"] : List String).length =
        ([exFilterA, exFilterB] : List ExtendedEventFilter).length :=
  orderedFilter_complete exLogs [exFilterA, exFilterB] false _ _ rfl

/-- C4: within one successful call of the ordered matcher, no log record is
matched by two different filters — the matched sequence positions are
pairwise distinct. -/
theorem orderedLoop_positions_nodup (actuals : List Log) (fo : Bool)
    (expecteds : List ExtendedEventFilter) (triples : List (Nat × String × ResultVal))
    (h : orderedLoop actuals fo expecteds [] (-1) = .ok triples) :
    (triples.map (·.1)).Nodup :=
  (orderedLoop_invariant actuals fo expecteds [] (-1) triples h).2.2.2

/-- Witness for C4: the concrete successful run consumes the distinct
positions `[0, 1]`. -/
theorem orderedLoop_positions_nodup_witness :
    (([(0, "0xA1", emptyResult), (1, "0xB1", emptyResult)] :
        List (Nat × String × ResultVal)).map (·.1)).Nodup :=
  orderedLoop_positions_nodup exLogs false [exFilterA, exFilterB] _ rfl

/-- C5: with `forwardOnly = true` every search starts strictly after the
previous filter's match, so no record at or before a previous match can be
matched by a subsequent filter: the ordering assertion can never fire, and
every later filter's position strictly exceeds every earlier filter's
position. -/
theorem orderedFilter_forwardOnly_unreachable (actuals : List Log)
    (expecteds : List ExtendedEventFilter) :
    (_orderedFilter actuals expecteds true ≠
        .error (.assertionError "Wrong order of events")) ∧
      ∀ triples, orderedLoop actuals true expecteds [] (-1) = .ok triples →
        (triples.map (·.1)).Pairwise (· < ·) := by
  constructor
  · intro h
    revert h
    simp only [_orderedFilter]
    cases hloop : orderedLoop actuals true expecteds [] (-1) with
    | error e =>
        intro h
        obtain rfl := Except.error.inj h
        exact orderedLoop_true_no_wrongOrder actuals expecteds [] (-1) hloop
    | ok triples =>
        by_cases hlen : triples.length = expecteds.length
        · simp [if_pos hlen]
        · simp only [if_neg hlen]
          intro h
          have := Except.error.inj h
          simp at this
  · intro triples h
    exact (orderedLoop_invariant actuals true expecteds [] (-1) triples h).2.2.1

/-- Witness for C5: the forward-only run matching positions `[1, 2]` has
pairwise increasing positions (and its `≠` conjunct is discharged by the
theorem itself at the same inputs). -/
theorem orderedFilter_forwardOnly_unreachable_witness :
    (_orderedFilter exLogs [exFilterB, exFilterA] true ≠
        .error (.assertionError "Wrong order of events")) ∧
      (([(1, "0xB1", emptyResult), (2, "0xA2", emptyResult)] :
          List (Nat × String × ResultVal)).map (·.1)).Pairwise (· < ·) :=
  ⟨(orderedFilter_forwardOnly_unreachable exLogs [exFilterB, exFilterA]).1,
    (orderedFilter_forwardOnly_unreachable exLogs [exFilterB, exFilterA]).2 _ rfl⟩

/-- Witness for the amended C1: the first eligible candidate for the `A`
filter (position 0, with position 1 consumed and the previous match at 1)
triggers the ordering assertion. -/
theorem scanList_firstCandidate_decides_witness :
    scanList exFilterA [1] 1 (List.enumFrom 0 exLogs) =
        .error (.assertionError "Wrong order of events") ∧
      scanList exFilterA [1] (-2) (List.enumFrom 0 exLogs) =
        .ok (some (0, ⟨"0xA1", ["A"], ""⟩, emptyResult)) :=
  ⟨(scanList_firstCandidate_decides exFilterA [1] (List.enumFrom 0 exLogs)
      0 ⟨"0xA1", ["A"], ""⟩ emptyResult rfl 1).1 (by decide),
    (scanList_firstCandidate_decides exFilterA [1] (List.enumFrom 0 exLogs)
      0 ⟨"0xA1", ["A"], ""⟩ emptyResult rfl (-2)).2 (by decide)⟩

section LogDecoderLemmas

/-- The decoder lookup induced by a single-entry decoder map answers exactly
on the map's address and tag. -/
theorem singleDecoderLookup (aU tag : String) (d : Log → ResultVal)
    (emitter : String) (topic : Option String) :
    (match topic with
      | some t => (mapGet [(aU, [(tag, d)])] emitter).bind (fun sub => mapGet sub t)
      | none => none) =
      if emitter = aU ∧ topic = some tag then some d else none := by
  cases topic with
  | none => simp
  | some t =>
      by_cases he : emitter = aU
      · subst he
        by_cases ht : t = tag
        · subst ht
          simp [mapGet]
        · have h1 : (tag == t) = false :=
            beq_eq_false_iff_ne.mpr (fun hc => ht hc.symm)
          simp [mapGet, h1, ht]
      · have h1 : (aU == emitter) = false :=
          beq_eq_false_iff_ne.mpr (fun hc => he hc.symm)
        simp [mapGet, h1, he]

/-- A lookup that never finds a decoder decodes nothing. -/
theorem decodeEventLogs_none (logs : List Log)
    (lk : String → Option String → Option (Log → ResultVal))
    (h : ∀ e t, lk e t = none) : decodeEventLogs logs lk = [] := by
  induction logs with
  | nil => rfl
  | cons entry rest ih => simp [decodeEventLogs, h, ih]

/-- Scanning with the single-entry lookup decodes exactly the records whose
tag and upper-cased address match, in order. -/
theorem decodeEventLogs_single (aU tag : String) (d : Log → ResultVal) :
    ∀ logs : List Log,
      decodeEventLogs logs
          (fun emitter topic =>
            match topic with
            | some t => (mapGet [(aU, [(tag, d)])] emitter).bind (fun sub => mapGet sub t)
            | none => none) =
        (logs.filter (fun l =>
          (jsUpper l.address) == aU && l.topics.head? == some tag)).map d := by
  intro logs
  induction logs with
  | nil => rfl
  | cons entry rest ih =>
      rw [decodeEventLogs, singleDecoderLookup]
      by_cases hc : (jsUpper entry.address) = aU ∧ entry.topics.head? = some tag
      · have hb : ((jsUpper entry.address) == aU && entry.topics.head? == some tag) = true := by
          simp [hc.1, hc.2]
        rw [if_pos hc]
        simp [List.filter_cons, hb, ih]
      · have hb : ((jsUpper entry.address) == aU && entry.topics.head? == some tag) = false := by
          cases hbt : ((jsUpper entry.address) == aU && entry.topics.head? == some tag) with
          | false => rfl
          | true =>
              rw [Bool.and_eq_true, beq_iff_eq, beq_iff_eq] at hbt
              exact absurd hbt hc
        rw [if_neg hc]
        simp [List.filter_cons, hb, ih]

end LogDecoderLemmas

/-- C6 (counterexample): the single-filter Log Decoder path decodes nothing
when the filter's target address is unset, even for a record whose topic 0
equals the filter's signature tag — the claim's "any address when it is
unset" fails. -/
theorem filterEventFromLog_noAddress_empty :
    filterEventFromLog exLogs exFilterA = [] ∧
      exFilterA.address = none ∧
      exFilterA.topics = some [some "A"] ∧
      (exLogs.getD 0 ⟨"", [], ""⟩).topics.head? = some "A" :=
  ⟨rfl, rfl, rfl, rfl⟩

/-- C6 (amended): when the filter's target address is set (non-empty) and its
topics carry a string signature tag, `filterEventFromLog` returns, in
original order, the decoded values of exactly those records whose topic 0
equals the tag and whose address matches the target case-insensitively —
never failing on zero matches and never consulting `nonIndexed` — but when
the target address is unset the path decodes nothing and returns `[]`. -/
theorem filterEventFromLog_amended :
    (∀ (logs : List Log) (f : ExtendedEventFilter) (a : String)
        (ts : List (Option String)) (tag : String),
      f.address = some a → a ≠ "" → f.topics = some ts → ts.head? = some (some tag) →
      filterEventFromLog logs f =
        (logs.filter (fun l =>
          (jsUpper l.address) == (jsUpper a) && l.topics.head? == some tag)).map
          f.decodeEventData) ∧
      (∀ (logs : List Log) (f : ExtendedEventFilter),
        f.address = none → filterEventFromLog logs f = []) := by
  constructor
  · intro logs f a ts tag ha hne hts htag
    have hdec : filtersToDecoders [f] = [((jsUpper a), [(tag, f.decodeEventData)])] := by
      simp [filtersToDecoders, ha, hts, hne, htag, mapGet, mapSet]
    unfold filterEventFromLog
    rw [hdec]
    rw [decodeEventLogs_single (jsUpper a) tag f.decodeEventData logs]
  · intro logs f ha
    have hdec : filtersToDecoders [f] = [] := by
      simp [filtersToDecoders, ha]
    unfold filterEventFromLog
    rw [hdec]
    apply decodeEventLogs_none
    intro e t
    cases t <;> simp [mapGet]

/-- Witness for the amended C6: with a target address set, the `B`-tagged
record at `0xB1` is decoded; with the address unset, nothing is. -/
theorem filterEventFromLog_amended_witness :
    (filterEventFromLog exLogs exFilterBAddr =
        (exLogs.filter (fun l =>
          (jsUpper l.address) == (jsUpper "0xb1") && l.topics.head? == some "B")).map
          exFilterBAddr.decodeEventData) ∧
      filterEventFromLog exLogs exFilterA = [] :=
  ⟨filterEventFromLog_amended.1 exLogs exFilterBAddr "0xb1" [some "B"] "B"
      rfl (by decide) rfl rfl,
    filterEventFromLog_amended.2 exLogs exFilterA rfl⟩

section ValueMatcherLemmas

/-- Elements of a `nullFree` array are `nullFree`. -/
theorem nullFreeL_get (es : JSList) (h : nullFreeL es = true) :
    ∀ i, nullFree ((es.get? i).getD .vUndef) = true := by
  cases es with
  | nil => intro i; cases i <;> rfl
  | cons hd tl =>
      rw [nullFreeL, Bool.and_eq_true] at h
      intro i
      cases i with
      | zero => exact h.1
      | succ n => exact nullFreeL_get tl h.2 n

/-- Field values of a `nullFree` object are `nullFree`. -/
theorem nullFreeF_get (fs : JSFields) (h : nullFreeF fs = true) :
    ∀ k, nullFree ((fs.get? k).getD .vUndef) = true := by
  cases fs with
  | fnil => intro k; rfl
  | fcons k' v tl =>
      rw [nullFreeF, Bool.and_eq_true] at h
      intro k
      rw [JSFields.get?]
      by_cases hk : k' = k
      · rw [if_pos hk]; exact h.1
      · rw [if_neg hk]; exact nullFreeF_get tl h.2 k

/-- Property access preserves `nullFree`. -/
theorem nullFree_getProp (v : JSVal) (k : String) (h : nullFree v = true) :
    nullFree (getProp v k) = true := by
  cases v with
  | vObj fs => exact nullFreeF_get fs h k
  | vArr es =>
      rw [getProp]
      by_cases hl : k = "length"
      · rw [if_pos hl]; rfl
      · rw [if_neg hl]
        cases jsDecimalIndex? k with
        | none => rfl
        | some i => exact nullFreeL_get es h i
  | vNull => rfl
  | vUndef => rfl
  | vBool b => rfl
  | vNum n => rfl
  | vStr s => rfl

mutual

/-- Function `isDeepEqual` never raises on a pair of values containing no `null`. -/
theorem isDeepEqual_total (v0 v1 : JSVal) (h0 : nullFree v0 = true)
    (h1 : nullFree v1 = true) : ∃ b, isDeepEqual v0 v1 = .ok b := by
  cases v0 with
  | vNull => exact absurd h0 (by rw [nullFree]; exact Bool.false_ne_true)
  | vUndef => cases v1 <;> exact ⟨_, rfl⟩
  | vBool b => cases v1 <;> exact ⟨_, rfl⟩
  | vNum n => cases v1 <;> exact ⟨_, rfl⟩
  | vStr s => cases v1 <;> exact ⟨_, rfl⟩
  | vArr a0 =>
      cases v1 with
      | vNull => exact absurd h1 (by rw [nullFree]; exact Bool.false_ne_true)
      | vUndef => exact ⟨_, rfl⟩
      | vBool b => exact ⟨_, rfl⟩
      | vNum n => exact ⟨_, rfl⟩
      | vStr s => exact ⟨_, rfl⟩
      | vObj f1 => exact ⟨_, rfl⟩
      | vArr a1 =>
          rw [nullFree] at h0 h1
          have hred : isDeepEqual (.vArr a0) (.vArr a1) =
              (if a0.length = a1.length then deepEqElems a0 a1 else .ok false) := rfl
          by_cases hl : a0.length = a1.length
          · obtain ⟨b, hb⟩ := deepEqElems_total a0 a1 h0 h1
            exact ⟨b, by rw [hred, if_pos hl]; exact hb⟩
          · exact ⟨false, by rw [hred, if_neg hl]⟩
  | vObj f0 =>
      cases v1 with
      | vNull => exact absurd h1 (by rw [nullFree]; exact Bool.false_ne_true)
      | vUndef => exact ⟨_, rfl⟩
      | vBool b => exact ⟨_, rfl⟩
      | vNum n => exact ⟨_, rfl⟩
      | vStr s => exact ⟨_, rfl⟩
      | vArr a1 =>
          rw [nullFree] at h0
          have hred : isDeepEqual (.vObj f0) (.vArr a1) =
              (if f0.length ≠
                  ((List.range a1.length).map (fun i => toString i) ++ ["length"]).length
                then .ok false
                else deepEqFields f0 (.vArr a1)
                  ((List.range a1.length).map (fun i => toString i) ++ ["length"])) := rfl
          by_cases hl : f0.length =
              ((List.range a1.length).map (fun i => toString i) ++ ["length"]).length
          · obtain ⟨b, hb⟩ := deepEqFields_total f0 (.vArr a1)
              ((List.range a1.length).map (fun i => toString i) ++ ["length"]) h0 h1
            exact ⟨b, by rw [hred, if_neg (not_not_intro hl)]; exact hb⟩
          · exact ⟨false, by rw [hred, if_pos hl]⟩
      | vObj f1 =>
          rw [nullFree] at h0
          have hred : isDeepEqual (.vObj f0) (.vObj f1) =
              (if f0.length ≠ f1.names.length then .ok false
                else deepEqFields f0 (.vObj f1) f1.names) := rfl
          by_cases hl : f0.length = f1.names.length
          · obtain ⟨b, hb⟩ := deepEqFields_total f0 (.vObj f1) f1.names h0 h1
            exact ⟨b, by rw [hred, if_neg (not_not_intro hl)]; exact hb⟩
          · exact ⟨false, by rw [hred, if_pos hl]⟩

/-- Function `deepEqElems` never raises on `null`-free element lists. -/
theorem deepEqElems_total (a0 a1 : JSList) (h0 : nullFreeL a0 = true)
    (h1 : nullFreeL a1 = true) : ∃ b, deepEqElems a0 a1 = .ok b := by
  cases a0 with
  | nil => exact ⟨true, rfl⟩
  | cons hd0 tl0 =>
      rw [nullFreeL, Bool.and_eq_true] at h0
      cases a1 with
      | nil =>
          obtain ⟨b, hb⟩ := isDeepEqual_total hd0 .vUndef h0.1 rfl
          cases b with
          | true =>
              obtain ⟨b', hb'⟩ := deepEqElems_total tl0 .nil h0.2 rfl
              exact ⟨b', by rw [deepEqElems, hb]; exact hb'⟩
          | false => exact ⟨false, by rw [deepEqElems, hb]⟩
      | cons hd1 tl1 =>
          rw [nullFreeL, Bool.and_eq_true] at h1
          obtain ⟨b, hb⟩ := isDeepEqual_total hd0 hd1 h0.1 h1.1
          cases b with
          | true =>
              obtain ⟨b', hb'⟩ := deepEqElems_total tl0 tl1 h0.2 h1.2
              exact ⟨b', by rw [deepEqElems, hb]; exact hb'⟩
          | false => exact ⟨false, by rw [deepEqElems, hb]⟩

/-- Function `deepEqFields` never raises when the left fields and right value are
`null`-free. -/
theorem deepEqFields_total (f0 : JSFields) (v1 : JSVal) (k1 : List String)
    (h0 : nullFreeF f0 = true) (h1 : nullFree v1 = true) :
    ∃ b, deepEqFields f0 v1 k1 = .ok b := by
  cases f0 with
  | fnil => exact ⟨true, rfl⟩
  | fcons k v tl =>
      rw [nullFreeF, Bool.and_eq_true] at h0
      by_cases hk : k ∈ k1
      · obtain ⟨b, hb⟩ := isDeepEqual_total v (getProp v1 k) h0.1 (nullFree_getProp v1 k h1)
        cases b with
        | true =>
            obtain ⟨b', hb'⟩ := deepEqFields_total tl v1 k1 h0.2 h1
            exact ⟨b', by rw [deepEqFields, if_pos hk, hb]; exact hb'⟩
        | false => exact ⟨false, by rw [deepEqFields, if_pos hk, hb]⟩
      · exact ⟨false, by rw [deepEqFields, if_neg hk]⟩

end

/-- Access `byIndex` of a `null`-free result is `null`-free. -/
theorem nullFree_byIndex (r : ResultVal) (h : ∀ v ∈ r.arr, nullFree v = true) (i : Nat) :
    nullFree (r.byIndex i) = true := by
  rw [ResultVal.byIndex, List.getD_eq_getD_get?]
  cases hg : r.arr.get? i with
  | none => rfl
  | some v => exact h v (List.get?_mem hg)

/-- The positional loop of `_matchProperties` never raises under the
`null`-freeness hypotheses. -/
theorem matchPropsAux_total (actual : ResultVal)
    (ha : ∀ v ∈ actual.arr, nullFree v = true) :
    ∀ (expected : List JSVal) (idx : Nat),
      (∀ v ∈ expected, jsNullish v = true ∨ nullFree v = true) →
      ∃ b, matchPropsAux actual expected idx = .ok b := by
  intro expected
  induction expected with
  | nil => intro idx _; exact ⟨true, rfl⟩
  | cons v rest ih =>
      intro idx he
      rw [matchPropsAux]
      by_cases hn : jsNullish v = true
      · rw [if_pos hn]
        exact ih (idx + 1) (fun w hw => he w (List.mem_cons_of_mem _ hw))
      · rw [if_neg hn]
        have hv : nullFree v = true := by
          rcases he v (List.mem_cons_self _ _) with h | h
          · exact absurd h hn
          · exact h
        obtain ⟨b, hb⟩ := isDeepEqual_total v (actual.byIndex idx) hv
          (nullFree_byIndex actual ha idx)
        cases b with
        | true =>
            obtain ⟨b', hb'⟩ := ih (idx + 1) (fun w hw => he w (List.mem_cons_of_mem _ hw))
            exact ⟨b', by rw [hb]; exact hb'⟩
        | false => exact ⟨false, by rw [hb]⟩

end ValueMatcherLemmas

/-- C7 (counterexample): the Value Matcher is not total — comparing a
constraint that nests `null` inside a sequence against an equal decoded
value raises a `TypeError` (modelled as `.error ()`) instead of returning a
boolean, because `Object.getOwnPropertyNames(null)` throws. -/
theorem matchProperties_throws_on_nested_null :
    _matchProperties ⟨[.vArr (.cons .vNull .nil)], []⟩ [.vArr (.cons .vNull .nil)] =
        .error () ∧
      isDeepEqual .vNull .vNull = .error () :=
  ⟨rfl, rfl⟩

/-- C7 (amended): the Value Matcher is pure and total — returning a boolean
with no failure — on every pair of inputs in which no `null` occurs inside
the compared values (top-level `null`/`undefined` constraint entries are
wildcards and remain allowed); with a `null` nested inside a sequence or
structured object on either side it can instead raise a `TypeError`. -/
theorem matchProperties_total_nullFree (actual : ResultVal) (expected : List JSVal)
    (ha : ∀ v ∈ actual.arr, nullFree v = true)
    (he : ∀ v ∈ expected, jsNullish v = true ∨ nullFree v = true) :
    ∃ b, _matchProperties actual expected = .ok b :=
  matchPropsAux_total actual ha expected 0 he

/-- Witness for the amended C7: a concrete `null`-free comparison returns a
boolean. -/
theorem matchProperties_total_nullFree_witness :
    ∃ b, _matchProperties ⟨[.vNum 1, .vStr "x"], []⟩ [.vNull, .vStr "x"] = .ok b :=
  matchProperties_total_nullFree ⟨[.vNum 1, .vStr "x"], []⟩ [.vNull, .vStr "x"]
    (by decide) (by decide)

section FilterBuilderLemmas

/-- Positional run of the parameter loop: with an array spec holding the
remaining values at the scanned indices and no named properties, the loop
routes exactly the positional values and never touches `namedCount`. -/
theorem buildLoop_positional (V : List JSVal) :
    ∀ (suf : List EventParam) (vs : List JSVal) (k : Nat),
      V.drop k = vs → vs.length = suf.length →
      (∀ v ∈ vs, jsNullish v = false) →
      (∀ p ∈ suf, jsDecimalIndex? p.name = none ∧ p.name ≠ "length" ∧
        p.name ∉ jsArrayProtoNames ∧ p.name ∉ jsObjectProtoNames) →
      buildLoop ⟨true, V, []⟩ suf k 0 =
        .ok ((specLoop suf vs).1, (specLoop suf vs).2.1, (specLoop suf vs).2.2, 0) := by
  intro suf
  induction suf with
  | nil =>
      intro vs k _ _ _ _
      rfl
  | cons p rest ih =>
      intro vs k hdrop hlen hnn hnames
      cases vs with
      | nil => simp at hlen
      | cons v vs' =>
          obtain ⟨hname, hlg, hpa, hpo⟩ := hnames p (List.mem_cons_self _ _)
          have hv : jsNullish v = false := hnn v (List.mem_cons_self _ _)
          have hlp : lookupProp ⟨true, V, []⟩ p.name = .vUndef := by
            simp [lookupProp, hname, hlg, hpa, hpo]
          have h1 : V[k]? = some v := by rw [← List.head?_drop, hdrop]; rfl
          have hgetD : V.getD k .vUndef = v := by
            rw [List.getD_eq_getD_get?, List.get?_eq_getElem?, h1]; rfl
          have hdrop' : V.drop (k + 1) = vs' := by
            have h2 : (V.drop k).drop 1 = V.drop (k + 1) := by rw [List.drop_drop]
            rw [← h2, hdrop]; rfl
          have hrest := ih vs' (k + 1) hdrop' (by simpa using hlen)
            (fun w hw => hnn w (List.mem_cons_of_mem _ hw))
            (fun q hq => hnames q (List.mem_cons_of_mem _ hq))
          rw [buildLoop]
          simp only [hlp, hgetD, jsCoalesceNull, hv, hrest]
          cases hpi : p.indexed <;> simp [specLoop, hpi, hrest]

/-- Named run of the parameter loop: with a record spec resolving every
remaining parameter's name to its value, the loop routes exactly those
values and decrements `namedCount` once per parameter. -/
theorem buildLoop_named (M : List (String × JSVal)) :
    ∀ (suf : List EventParam) (vs : List JSVal),
      List.Forall₂ (fun p v => mapGet M p.name = some v ∧ jsNullish v = false) suf vs →
      ∀ (k : Nat) (c : Int),
        buildLoop ⟨false, [], M⟩ suf k c =
          .ok ((specLoop suf vs).1, (specLoop suf vs).2.1, (specLoop suf vs).2.2,
            c - (suf.length : Int)) := by
  intro suf vs hf
  induction hf with
  | nil =>
      intro k c
      simp [buildLoop, specLoop]
  | @cons p v ps vs' hpv htail ih =>
      intro k c
      obtain ⟨hlk, hnn⟩ := hpv
      have hlp : lookupProp ⟨false, [], M⟩ p.name = v := by
        have h0 : lookupProp ⟨false, [], M⟩ p.name =
            (match mapGet M p.name with
              | some w => w
              | none =>
                  if p.name ∈ jsObjectProtoNames then jsInheritedMember
                  else JSVal.vUndef) := rfl
        rw [h0, hlk]
      have hcount : c - 1 - (ps.length : Int) = c - ((ps.length + 1 : Nat) : Int) := by
        push_cast
        ring
      rw [buildLoop]
      simp only [hlp]
      have hrest := ih (k + 1) (c - 1)
      cases v with
      | vNull => simp [jsNullish] at hnn
      | vUndef => simp [jsNullish] at hnn
      | vBool b =>
          simp only [hrest]
          cases hpi : p.indexed <;> simp [specLoop, hpi, hcount]
      | vNum n =>
          simp only [hrest]
          cases hpi : p.indexed <;> simp [specLoop, hpi, hcount]
      | vStr s =>
          simp only [hrest]
          cases hpi : p.indexed <;> simp [specLoop, hpi, hcount]
      | vArr es =>
          simp only [hrest]
          cases hpi : p.indexed <;> simp [specLoop, hpi, hcount]
      | vObj fs =>
          simp only [hrest]
          cases hpi : p.indexed <;> simp [specLoop, hpi, hcount]

/-- Looking up each parameter's name in the zip of names with values finds
its own value, given distinct names (stated with an arbitrary clash-free
prefix so the induction goes through). -/
theorem forall2_zip_lookup :
    ∀ (inputs : List EventParam) (vals : List JSVal) (pre : List (String × JSVal)),
      vals.length = inputs.length →
      (inputs.map (·.name)).Nodup →
      (∀ v ∈ vals, jsNullish v = false) →
      (∀ p ∈ inputs, ∀ q ∈ pre, q.1 ≠ p.name) →
      List.Forall₂
        (fun p v =>
          mapGet (pre ++ (inputs.map (·.name)).zip vals) p.name = some v ∧
            jsNullish v = false)
        inputs vals := by
  intro inputs
  induction inputs with
  | nil =>
      intro vals pre hlen _ _ _
      cases vals with
      | nil => exact .nil
      | cons v vs => simp at hlen
  | cons p rest ih =>
      intro vals pre hlen hnd hnn hpre
      cases vals with
      | nil => simp at hlen
      | cons v vs =>
          have hfind : pre.find? (fun q => q.1 == p.name) = none := by
            rw [List.find?_eq_none]
            intro q hq
            simp only [beq_iff_eq]
            exact hpre p (List.mem_cons_self _ _) q hq
          constructor
          · refine ⟨?_, hnn v (List.mem_cons_self _ _)⟩
            rw [List.map_cons, List.zip_cons_cons, mapGet, List.find?_append, hfind]
            simp [List.find?]
          · have hnd' : (rest.map (·.name)).Nodup := by
              rw [List.map_cons, List.nodup_cons] at hnd
              exact hnd.2
            have hnotin : p.name ∉ rest.map (·.name) := by
              rw [List.map_cons, List.nodup_cons] at hnd
              exact hnd.1
            have hpre' : ∀ p' ∈ rest, ∀ q ∈ pre ++ [(p.name, v)], q.1 ≠ p'.name := by
              intro p' hp' q hq
              rcases List.mem_append.mp hq with h | h
              · exact hpre p' (List.mem_cons_of_mem _ hp') q h
              · obtain rfl : q = (p.name, v) := by simpa using h
                intro hc
                have : p'.name ∈ rest.map (·.name) := List.mem_map_of_mem (·.name) hp'
                rw [← hc] at this
                exact hnotin this
            have := ih vs (pre ++ [(p.name, v)]) (by simpa using hlen) hnd'
              (fun w hw => hnn w (List.mem_cons_of_mem _ hw)) hpre'
            rw [List.append_assoc] at this
            simpa using this
end FilterBuilderLemmas

/-- C8 (counterexample): for the single-parameter signature whose parameter
is named `length`, the fully-specified positional build fails — on the array
spec `[1]` the named lookup `properties["length"]` finds the array's own
`length` property (the number 1, not `undefined`), so `namedCount` is
decremented below zero and the final consistency assertion throws — while
the equivalent fully-specified named build succeeds, so the two forms do not
produce equal constraint sequences. -/
theorem buildFilterArgs_lengthName_breaks :
    _buildFilterArgs [⟨"length", false⟩] ⟨true, [.vNum 1], []⟩ =
        .error (.assertionError "Inconsistend set of named properties") ∧
      _buildFilterArgs [⟨"length", false⟩] ⟨false, [], [("length", .vNum 1)]⟩ =
        .ok ([.vNull], some [.vNum 1]) :=
  ⟨rfl, rfl⟩

/-- C8 (amended): for a signature with distinct parameter names, each of
which denotes a plain data property — not a decimal index string, not
`length`, and not an inherited `Array.prototype` / `Object.prototype` member
name — and a fully-specified value assignment (no `null`/`undefined`
entries), building the filter constraints from the purely positional spec
and from the equivalent purely named spec produces element-wise equal
topic-constraint sequences and element-wise equal non-indexed constraint
sequences.  For a parameter named `length` or after an inherited member,
the positional form instead fails while the named form succeeds. -/
theorem buildFilterArgs_roundTrip (inputs : List EventParam) (vals : List JSVal)
    (hlen : vals.length = inputs.length)
    (hnd : (inputs.map (·.name)).Nodup)
    (hnum : ∀ p ∈ inputs, jsDecimalIndex? p.name = none ∧ p.name ≠ "length" ∧
      p.name ∉ jsArrayProtoNames ∧ p.name ∉ jsObjectProtoNames)
    (hnn : ∀ v ∈ vals, jsNullish v = false) :
    _buildFilterArgs inputs ⟨true, vals, []⟩ =
      _buildFilterArgs inputs ⟨false, [], (inputs.map (·.name)).zip vals⟩ := by
  cases inputs with
  | nil =>
      cases vals with
      | nil => rfl
      | cons v vs => simp at hlen
  | cons p rest =>
      cases vals with
      | nil => simp at hlen
      | cons v vs =>
          have hzlen : (((p :: rest).map (·.name)).zip (v :: vs)).length =
              (p :: rest).length := by
            rw [List.length_zip, List.length_map, hlen, Nat.min_self]
          have hpos := buildLoop_positional (v :: vs) (p :: rest) (v :: vs) 0 rfl
            hlen hnn hnum
          have hf2 := forall2_zip_lookup (p :: rest) (v :: vs) [] hlen hnd hnn
            (by simp)
          have hnamed := buildLoop_named (((p :: rest).map (·.name)).zip (v :: vs))
            (p :: rest) (v :: vs) (by simpa using hf2) 0
            ((((p :: rest).map (·.name)).zip (v :: vs)).length : Int)
          have hc0 : ((((p :: rest).map (·.name)).zip (v :: vs)).length : Int) -
              (((p :: rest).length : Nat) : Int) = 0 := by
            rw [hzlen]
            ring
          rw [hc0] at hnamed
          rw [hzlen] at hnamed
          have hg1 : ¬((p :: rest).length < (v :: vs).length) := by omega
          simp only [_buildFilterArgs]
          simp only [true_and, if_true, Bool.false_eq_true, false_and, if_false,
            List.filter_nil, List.length_nil, Nat.cast_zero]
          rw [if_neg hg1]
          have hguardL : (0 : Int) < 0 ∨ 0 < (v :: vs).length := Or.inr (by simp)
          rw [if_pos hguardL]
          have hguardR : (0 : Int) < (((p :: rest).length : Nat) : Int) ∨ 0 < (0 : Nat) :=
            Or.inl (by exact_mod_cast Nat.succ_pos rest.length)
          rw [hzlen, if_pos hguardR]
          rw [hpos, hnamed]

/-- Witness for the amended C8: a two-parameter signature (`a` indexed, `b`
not) built from positional `[1, "x"]` and from named `{a: 1, b: "x"}` yields
the same constraint sequences. -/
theorem buildFilterArgs_roundTrip_witness :
    _buildFilterArgs [⟨"a", true⟩, ⟨"b", false⟩] ⟨true, [.vNum 1, .vStr "x"], []⟩ =
      _buildFilterArgs [⟨"a", true⟩, ⟨"b", false⟩]
        ⟨false, [], [("a", .vNum 1), ("b", .vStr "x")]⟩ :=
  buildFilterArgs_roundTrip [⟨"a", true⟩, ⟨"b", false⟩] [.vNum 1, .vStr "x"]
    (by decide) (by decide) (by decide) (by decide)

section EventFactoryLemmas

/-- A successful `verifyAll` pass certifies each decoded result. -/
theorem verifyAll_ok (params : List EventParam) :
    ∀ (l : List ResultVal), verifyAll params l = .ok () →
      ∀ a ∈ l, _verifyByFragment params a = .ok () := by
  intro l
  induction l with
  | nil => intro _ a ha; simp at ha
  | cons r rest ih =>
      intro h a ha
      rw [verifyAll] at h
      revert h
      cases hv : _verifyByFragment params r with
      | error e => intro h; simp at h
      | ok u =>
          intro h
          rcases List.mem_cons.mp ha with rfl | hmem
          · cases u; exact hv
          · exact ih h a hmem

/-- Function `findEventArgs` never returns an empty list. -/
theorem findEventArgs_ok_ne_nil (em : EmitterModel) (logs : List Log)
    (args : List ResultVal) (h : findEventArgs em logs = .ok args) : args ≠ [] := by
  revert h
  rw [findEventArgs]
  by_cases hl : 0 < ((logs.filter (fun entry =>
      entry.topics.head? == some em.eventTag &&
      (jsUpper entry.address) == (jsUpper em.address))).map em.decode).length
  · rw [if_pos hl]
    intro h
    obtain rfl := (Except.ok.inj h).symm
    intro hc
    rw [hc] at hl
    simp at hl
  · rw [if_neg hl]
    intro h
    simp at h

end EventFactoryLemmas

/-- C9 (counterexample): `all` verifies decoded results only when the caller
supplies no transform: for an emitter whose decoded value lacks the declared
parameter, `all` without a transform fails the field-presence check, while
`all` with a transform returns the transformed, unverified results. -/
theorem allOp_skipsVerifyWithTransform :
    allOp exEmitter [exLogT] (none : Option (List ResultVal → Nat)) =
        .error (.assertionError "Property is undefined") ∧
      allOp exEmitter [exLogT] (some (fun rs => rs.length)) = .ok (.inr 1) :=
  ⟨rfl, rfl⟩

/-- C9 (amended): `all` verifies every decoded result against the
field-presence rule only when the results are returned as-is (no transform);
when a caller-supplied transform is given, the decoded results are passed to
it directly with no verification. -/
theorem allOp_verification (em : EmitterModel) (logs : List Log) {β : Type} :
    (∀ args : List ResultVal,
        allOp em logs (none : Option (List ResultVal → β)) = .ok (.inl args) →
        ∀ a ∈ args, _verifyByFragment em.params a = .ok ()) ∧
      (∀ f : List ResultVal → β,
        allOp em logs (some f) =
          (findEventArgs em logs).map (fun args => .inr (f args))) := by
  constructor
  · intro args h
    rw [allOp] at h
    cases hfa : findEventArgs em logs with
    | error e => simp [hfa] at h
    | ok args0 =>
        simp only [hfa] at h
        cases hv : verifyAll em.params args0 with
        | error e2 => simp [hv] at h
        | ok u =>
            cases u
            simp only [hv, Except.ok.injEq, Sum.inl.injEq] at h
            subst h
            exact verifyAll_ok em.params args0 hv
  · intro f
    rw [allOp]
    cases hfa : findEventArgs em logs with
    | error e => rfl
    | ok args0 => rfl

/-- Witness for the amended C9: the emitter with a populated decode passes
the field check on the returned results, and the transform path returns the
mapped `findEventArgs` output. -/
theorem allOp_verification_witness :
    (∀ a ∈ ([⟨[.vNum 7], [("a", .vNum 7)]⟩] : List ResultVal),
        _verifyByFragment exEmitterOk.params a = .ok ()) ∧
      allOp exEmitterOk [exLogT] (some (fun rs : List ResultVal => rs.length)) =
        (findEventArgs exEmitterOk [exLogT]).map (fun args => .inr args.length) :=
  ⟨(allOp_verification exEmitterOk [exLogT] (β := Nat)).1 _ rfl,
    (allOp_verification exEmitterOk [exLogT] (β := Nat)).2 _⟩

/-- C10: on a receipt whose logs contain no record with the factory's emitter
address and signature tag, `expectOne` and `all` both fail (whatever the
expected value or transform); moreover `all` never returns an empty result
list. -/
theorem factory_zeroMatches_fails (em : EmitterModel) (logs : List Log) {β : Type} :
    ((logs.filter (fun entry =>
        entry.topics.head? == some em.eventTag &&
        (jsUpper entry.address) == (jsUpper em.address))) = [] →
      (∀ e, expectOne em logs e =
          .error (.assertionError "Failed to find any event matching name")) ∧
        (∀ fn : Option (List ResultVal → β), allOp em logs fn =
          .error (.assertionError "Failed to find any event matching name"))) ∧
      (∀ (fn : Option (List ResultVal → β)) (args : List ResultVal),
        allOp em logs fn = .ok (.inl args) → args ≠ []) := by
  constructor
  · intro hz
    have hfa : findEventArgs em logs =
        .error (.assertionError "Failed to find any event matching name") := by
      rw [findEventArgs, hz]
      rfl
    exact ⟨fun e => by rw [expectOne, hfa], fun fn => by rw [allOp, hfa]⟩
  · intro fn args h
    rw [allOp] at h
    cases hfa : findEventArgs em logs with
    | error e => simp [hfa] at h
    | ok args0 =>
        simp only [hfa] at h
        cases fn with
        | none =>
            cases hv : verifyAll em.params args0 with
            | error e2 => simp [hv] at h
            | ok u =>
                cases u
                simp only [hv, Except.ok.injEq, Sum.inl.injEq] at h
                subst h
                exact findEventArgs_ok_ne_nil em logs args0 hfa
        | some f => simp at h

/-- Witness for C10: an empty log list makes `expectOne` fail, and the
successful `all` run on the populated emitter returns a non-empty list. -/
theorem factory_zeroMatches_fails_witness :
    expectOne exEmitter [] none =
        .error (.assertionError "Failed to find any event matching name") ∧
      ([⟨[.vNum 7], [("a", .vNum 7)]⟩] : List ResultVal) ≠ [] :=
  ⟨((factory_zeroMatches_fails exEmitter [] (β := Nat)).1 rfl).1 none,
    (factory_zeroMatches_fails exEmitterOk [exLogT] (β := Nat)).2 none _ rfl⟩

example :
    _orderedFilter exLogs [exFilterA, exFilterB] false =
      .ok (["0xA1", "0xB1"], [emptyResult, emptyResult]) := rfl
example :
    _orderedFilter exLogs [exFilterB, exFilterA] false =
      .error (.assertionError "Wrong order of events") := rfl
example :
    _orderedFilter exLogs [exFilterB, exFilterA] true =
      .ok (["0xB1", "0xA2"], [emptyResult, emptyResult]) := rfl
example :
    _orderedFilter exLogs [exFilterA, exFilterA, exFilterA] false =
      .error (.assertionError "Not all expected events were found") := rfl
example :
    _buildFilterArgs [⟨"toString", false⟩] ⟨true, [.vNum 1], []⟩ =
      .error (.assertionError "expected namedValue to equal value") := rfl
example :
    _buildFilterArgs [⟨"toString", false⟩] ⟨false, [], [("toString", .vNum 1)]⟩ =
      .ok ([.vNull], some [.vNum 1]) := rfl
example : isDeepEqual (.vNum 3) (.vNum 3) = .ok true := rfl
example : isDeepEqual .vNull .vNull = .error () := rfl
example : isDeepEqual .vNull (.vNum 3) = .ok false := rfl
example :
    isDeepEqual (.vArr (.cons .vNull .nil)) (.vArr (.cons .vNull .nil)) = .error () := rfl
example :
    isDeepEqual (.vObj (.fcons "a" (.vNum 1) .fnil)) (.vObj (.fcons "a" (.vNum 1) .fnil)) =
      .ok true := rfl
example :
    isDeepEqual (.vObj (.fcons "a" (.vNum 1) .fnil)) (.vObj (.fcons "b" (.vNum 1) .fnil)) =
      .ok false := rfl
example : isDeepEqual (.vObj .fnil) .vNull = .error () := rfl
example : isDeepEqual (.vArr .nil) (.vObj .fnil) = .ok false := rfl
